import Mathlib

/-!
# Verification of the radiant-floor 2D steady-state simulator core

Shallow embedding of the computational core of the simulator (the `results`
memo in the main application module): layer stack construction, underlay
equivalent conductivity, automatic pipe placement, adaptive vertical grid,
per-row conductivity assignment, pipe mask, the loop thermal model for pipe
boundary temperatures, the relaxation-solver boundary sweeps, and the
post-solve flux metrics.

Geometric and grid quantities are embedded over `ℚ` (the source performs
plain rational arithmetic on them); temperature-valued quantities that go
through `exp`/`log`/`pow` are embedded over `ℝ`.
-/

namespace Simpol

/-- Underlay variants, mirroring the `type` field of the underlay presets
(`none`, `foil`, `bubble`, `mat`). -/
inductive UnderType where
  | none
  | foil
  | bubble
  | mat
deriving DecidableEq

/-- Input parameter set of the core computation (the destructured fields of
`debounced` that the solver actually reads).  Thickness/geometry fields are
rationals; temperature-like fields that feed the transcendental model are
reals.  `underT` is the underlay preset's `t` field (`0` when the preset has
none), `underPhi` its `phi` field. -/
structure Params where
  Tair : ℝ
  Ts : ℝ
  Tr : ℝ
  spacing : ℚ
  pipeOD : ℚ
  screedThk : ℚ
  hTop : ℝ
  belowT : ℝ
  airVel : ℝ
  coverT : ℚ
  coverK : ℚ
  screedK : ℚ
  insulT : ℚ
  insulK : ℚ
  underType : UnderType
  underT : ℚ
  underPhi : ℚ
  layoutSpiral : Bool
  loopLength : ℚ
  loopPosFrac : ℚ
  useFixedArea : Bool
  areaM2 : ℚ

/-- `const NX = 144` — fixed horizontal node count. -/
def NX : ℕ := 144

/-- `S = Math.max(0.08, Math.min(0.40, spacing))`. -/
def Sval (p : Params) : ℚ := max 0.08 (min 0.40 p.spacing)

/-- `D = Math.max(0.012, Math.min(0.020, pipeOD))`. -/
def Dval (p : Params) : ℚ := max 0.012 (min 0.020 p.pipeOD)

/-- `tCover = cover.t`. -/
def tCover (p : Params) : ℚ := p.coverT

/-- `tScreed = Math.max(screedThk, 0.02)`. -/
def tScreed (p : Params) : ℚ := max p.screedThk 0.02

/-- Underlay thickness `tUnder`: set to `under.t` only in the
`bubble && under.t > 0` branch, otherwise left at `0`. -/
def tUnder (p : Params) : ℚ :=
  if p.underType = UnderType.bubble ∧ 0 < p.underT then p.underT else 0

/-- Underlay equivalent conductivity `kUnder`: initialized to `1`; in the
`bubble && under.t > 0` branch set to
`Math.max(0.002, tGap / (0.11 * (tGap/0.01) * 1.6))`; the `foil` branch
resets it to `1`. -/
def kUnder (p : Params) : ℚ :=
  if p.underType = UnderType.bubble ∧ 0 < p.underT then
    max 0.002 (p.underT / (0.11 * (p.underT / 0.01) * 1.6))
  else 1

/-- The bubble-foil equivalent-conductivity formula on its own:
`Math.max(0.002, tGap / (Rair_base * rad_factor))` with
`Rair_base = 0.11 * (tGap/0.01)` and `rad_factor = 1.6`. -/
def kUnderBubble (tGap : ℚ) : ℚ :=
  max 0.002 (tGap / (0.11 * (tGap / 0.01) * 1.6))

/-- `tIns = insul.t`. -/
def tIns (p : Params) : ℚ := p.insulT

/-- `totalH = tCover + tScreed + tUnder + tIns`. -/
def totalH (p : Params) : ℚ := tCover p + tScreed p + tUnder p + tIns p

/-- `yUnderTop = tCover + tScreed` — top of the underlay. -/
def yUnderTop (p : Params) : ℚ := tCover p + tScreed p

/-- `yInsulTop = tCover + tScreed + tUnder` — top of the insulation. -/
def yInsulTop (p : Params) : ℚ := tCover p + tScreed p + tUnder p

/-- `minCover = 0.02` — minimum covering of screed above the pipe. -/
def minCover : ℚ := 0.02

/-- `limitByScreed = Math.max(0, tScreed - D)`. -/
def limitByScreed (p : Params) : ℚ := max 0 (tScreed p - Dval p)

/-- `limitByCover = Math.max(0, yInsulTop - minCover - D)`. -/
def limitByCover (p : Params) : ℚ := max 0 (yInsulTop p - minCover - Dval p)

/-- `maxDBot = Math.max(0, Math.min(limitByScreed, limitByCover))`. -/
def maxDBot (p : Params) : ℚ := max 0 (min (limitByScreed p) (limitByCover p))

/-- `dBotRaw = Math.max(dBotUser, under.type !== 'none' ? under.t || 0 : 0)`
with `dBotUser = 0`; the `mat` presets carry no `t` field, so `under.t || 0`
evaluates to `0` for them. -/
def dBotRaw (p : Params) : ℚ :=
  max 0 (if p.underType ≠ UnderType.none then
           (if p.underType = UnderType.mat then 0 else p.underT) else 0)

/-- `dBot = Math.min(dBotRaw, maxDBot)`. -/
def dBot (p : Params) : ℚ := min (dBotRaw p) (maxDBot p)

/-- `pipeBottomY = yInsulTop - dBot`. -/
def pipeBottomY (p : Params) : ℚ := yInsulTop p - dBot p

/-- `pipeCenterY = pipeBottomY - 0.5 * D`. -/
def pipeCenterY (p : Params) : ℚ := pipeBottomY p - 0.5 * Dval p

/-- `pipeTopY = pipeCenterY - 0.5 * D`. -/
def pipeTopY (p : Params) : ℚ := pipeCenterY p - 0.5 * Dval p

/-- `nPipes` is fixed at `3` in the source (`useState(3)` with no setter). -/
def nPipes : ℕ := 3

/-- `W = Math.max(1, nPipes) * S`. -/
def Wval (p : Params) : ℚ := (max 1 nPipes : ℕ) * Sval p

/-- `pipeCenters[k].x = (k + 0.5) * S` (all centers share `y = pipeCenterY`). -/
def pipeCenterX (p : Params) (k : ℕ) : ℚ := ((k : ℚ) + 0.5) * Sval p

end Simpol

namespace Simpol

/-! ## Adaptive vertical grid -/

/-- JavaScript `Math.round` on the (non-negative) quantities used here:
`⌊x + 1/2⌋`. -/
def jsRound (q : ℚ) : ℤ := ⌊q + 1 / 2⌋

/-- `baseNY = 80`. -/
def baseNY : ℕ := 80

/-- `dyBase = totalH / Math.max(2, baseNY - 1)`. -/
def dyBase (p : Params) : ℚ := totalH p / (max 2 (baseNY - 1) : ℕ)

/-- The `dyLimits` list: `[dyBase]`, then `tCover/6` if `tCover > 0`,
then `tScreed/30` unconditionally, then `tUnder/4` if `tUnder > 0`,
then `tIns/10` if `tIns > 0`. -/
def dyLimits (p : Params) : List ℚ :=
  [dyBase p]
    ++ (if 0 < tCover p then [tCover p / 6] else [])
    ++ [tScreed p / 30]
    ++ (if 0 < tUnder p then [tUnder p / 4] else [])
    ++ (if 0 < tIns p then [tIns p / 10] else [])

/-- Minimum of a non-empty rational list (`Math.min(...dyLimits)`). -/
def listMin : List ℚ → ℚ
  | [] => 0
  | [a] => a
  | a :: b :: rest => min a (listMin (b :: rest))

/-- `dyTarget = Math.max(1e-5, Math.min(...dyLimits))`. -/
def dyTarget (p : Params) : ℚ := max (1e-5) (listMin (dyLimits p))

/-- `NY = Math.max(3, Math.min(300, Math.round(totalH / dyTarget) + 1))`. -/
def NYz (p : Params) : ℤ := max 3 (min 300 (jsRound (totalH p / dyTarget p) + 1))

/-- The vertical node count as a natural number. -/
def NYn (p : Params) : ℕ := (NYz p).toNat

/-- `dx = W / (NX - 1)`. -/
def dx (p : Params) : ℚ := Wval p / ((NX : ℚ) - 1)

/-- `dy = totalH / (NY - 1)`. -/
def dy (p : Params) : ℚ := totalH p / ((NYn p : ℚ) - 1)

/-! ## Per-row conductivity -/

/-- The covering-branch value `cover.t === 0 ? screed.k : cover.k`. -/
def kCoverEff (p : Params) : ℚ := if p.coverT = 0 then p.screedK else p.coverK

/-- The insulation-branch value `insul.t > 0 ? insul.k : screed.k`. -/
def kInsEff (p : Params) : ℚ := if 0 < p.insulT then p.insulK else p.screedK

/-- The conductivity assigned at depth `y` (body of the `kRow` loop):
`y ≤ tCover` → covering (screed when the covering has zero thickness);
`y ≤ tCover + tScreed` → screed; `y ≤ tCover + tScreed + tUnder` → underlay;
otherwise insulation (screed when insulation is absent). -/
def kAt (p : Params) (y : ℚ) : ℚ :=
  if y ≤ tCover p then kCoverEff p
  else if y ≤ tCover p + tScreed p then p.screedK
  else if y ≤ tCover p + tScreed p + tUnder p then kUnder p
  else kInsEff p

/-- `kRow[j] = kAt (j * dy)`. -/
def kRow (p : Params) (j : ℕ) : ℚ := kAt p ((j : ℚ) * dy p)

/-! ## Pipe mask and labels -/

/-- Whether grid node `(i, j)` lies inside pipe `k`:
`Math.hypot(x - pc.x, y - pc.y) <= r` with `r = 0.5 * D`, stated on squares
(`hypot(a,b) ≤ r ↔ a² + b² ≤ r²` for `r ≥ 0`) to stay within `ℚ`. -/
def insidePipe (p : Params) (i j k : ℕ) : Prop :=
  ((i : ℚ) * dx p - pipeCenterX p k) ^ 2 + ((j : ℚ) * dy p - pipeCenterY p) ^ 2
    ≤ (0.5 * Dval p) ^ 2

instance (p : Params) (i j k : ℕ) : Decidable (insidePipe p i j k) := by
  unfold insidePipe; infer_instance

/-- `pipeMask[idx(i,j)]`: written to `1` only inside the loops
`1 ≤ j ≤ NY-2`, `1 ≤ i ≤ NX-2` when the node falls inside some pipe;
`0` everywhere else (the array is zero-initialized). -/
def pipeMask (p : Params) (i j : ℕ) : ℕ :=
  if 1 ≤ j ∧ j ≤ NYn p - 2 ∧ 1 ≤ i ∧ i ≤ NX - 2 ∧
      ∃ k < nPipes, insidePipe p i j k then 1 else 0

/-- `pipeLabel[idx(i,j)]`: the index of the first pipe containing the node
(the inner `k` loop breaks at the first hit), written only at the same
in-range indices as the mask; `-1` everywhere else (the array is filled
with `-1`). -/
def pipeLabel (p : Params) (i j : ℕ) : ℤ :=
  if 1 ≤ j ∧ j ≤ NYn p - 2 ∧ 1 ≤ i ∧ i ≤ NX - 2 then
    match (List.range nPipes).find? (fun k => decide (insidePipe p i j k)) with
    | some k => (k : ℤ)
    | none => -1
  else -1

/-! ## Loop thermal model -/

/-- `computePipeTemperatures(n, Ts, Tr, layout, Tair, L, x, S)` — the 1D
exponential supply/return decay model producing one boundary temperature
per pipe.  `spiral = true` is `layout === 'spiral'`, `spiral = false` is
`'meander'` (the only other layout value).  The unused `S` argument is kept
to mirror the source signature.  `.slice(0, n)` is `List.take n`. -/
noncomputable def computePipeTemperatures (n : ℕ) (Ts Tr : ℝ) (spiral : Bool)
    (Tair L x _S : ℝ) : List ℝ :=
  if n ≤ 1 then [0.5 * (Ts + Tr)]
  else
    let num := max 1e-6 (Ts - Tair)
    let den := max 1e-6 (Tr - Tair)
    let alpha := max 1e-6 (Real.log (num / den) / max 1e-6 L)
    let deltaAdj : ℝ := if spiral then 2.0 else 3.0
    let clamp : ℝ → ℝ := fun v => max 0 (min L v)
    let Ts_at : ℝ → ℝ := fun s => Tair + (Ts - Tair) * Real.exp (-alpha * clamp s)
    let Tr_at : ℝ → ℝ := fun s => Tair + (Ts - Tair) * Real.exp (-alpha * clamp (L - s))
    if spiral then ([Ts_at (x - deltaAdj), Tr_at x, Ts_at (x + deltaAdj)]).take n
    else ([Ts_at (x - deltaAdj), Ts_at x, Ts_at (x + deltaAdj)]).take n

/-- The fitted decay coefficient on its own:
`alpha = Math.max(1e-6, Math.log(num/den) / Math.max(1e-6, L))` with
`num = Math.max(1e-6, Ts - Tair)`, `den = Math.max(1e-6, Tr - Tair)`. -/
noncomputable def alphaOf (Ts Tr Tair L : ℝ) : ℝ :=
  max 1e-6 (Real.log (max 1e-6 (Ts - Tair) / max 1e-6 (Tr - Tair)) / max 1e-6 L)

/-- `L_eff = Math.max(5, useFixedArea ? Math.max(1e-3, areaM2) / Math.max(0.02, S)
: loopLength)`. -/
def L_eff (p : Params) : ℚ :=
  max 5 (if p.useFixedArea then max 1e-3 p.areaM2 / max 0.02 (Sval p) else p.loopLength)

/-- `xPos = Math.max(0, Math.min(0.5, loopPosFrac)) * Math.max(1e-6, L_eff)`. -/
def xPos (p : Params) : ℚ := max 0 (min 0.5 p.loopPosFrac) * max 1e-6 (L_eff p)

/-- `TpipeArr = computePipeTemperatures(pipeCenters.length, Ts, Tr, layout,
Tair, L_eff, xPos, S)`; `pipeCenters.length = Math.max(1, nPipes)`. -/
noncomputable def TpipeArr (p : Params) : List ℝ :=
  computePipeTemperatures (max 1 nPipes) p.Ts p.Tr p.layoutSpiral p.Tair
    ((L_eff p : ℝ)) ((xPos p : ℝ)) ((Sval p : ℝ))

/-- `twm = 0.5 * (Ts + Tr)`. -/
def twm (p : Params) : ℝ := 0.5 * (p.Ts + p.Tr)

/-- `hEff = hTop + 6.0 * Math.pow(Math.max(0, airVel), 0.6)`. -/
noncomputable def hEffVal (p : Params) : ℝ :=
  p.hTop + 6.0 * (max 0 p.airVel) ^ (0.6 : ℝ)

/-- `TpipeArr[Math.max(0, Math.min(TpipeArr.length - 1, label))]` — list
access at a clamped integer index. -/
def arrGetClamped (l : List ℝ) (label : ℤ) : ℝ :=
  l.getD (max 0 (min ((l.length : ℤ) - 1) label)).toNat 0

/-! ## Relaxation-solver sweeps

The field `T` is embedded as a total function `ℕ → ℕ → ℝ`; `T i j` is
`T[idx(i,j)]` for in-range indices.  In-place mutation of the array is
modeled by sequential functional updates in source order. -/

/-- The temperature field. -/
def Field : Type := ℕ → ℕ → ℝ

/-- Point update of the field: `T[idx(i,j)] = v`. -/
def writeT (T : Field) (i j : ℕ) (v : ℝ) : Field :=
  fun a b => if a = i ∧ b = j then v else T a b

/-- Initial field: each row is a linear interpolation between `belowT`
(bottom) and `Tair` (top): `frac = 1 - j/(NY-1)`,
`Tv = belowT*(1-frac) + Tair*frac`. -/
noncomputable def initField (p : Params) : Field := fun _ j =>
  let frac : ℝ := 1 - (j : ℝ) / ((NYn p : ℝ) - 1)
  p.belowT * (1 - frac) + p.Tair * frac

/-- The mat-blended pipe value used in both the top-row and interior pipe
branches: `w*Tpipe + (1-w)*Trob` with `hGap = kGap/tGap = 0.026/0.001`,
`w = clamp(phi, 0, 1)`, `Trob = ((k/dy)*T1 + hGap*Tair) / ((k/dy) + hGap)`
where `T1 = T[idx(i,j+1)]` and `k = kRow[j]`. -/
noncomputable def matBlend (p : Params) (Tpipe T1 k : ℝ) : ℝ :=
  let hGap : ℝ := 0.026 / 0.001
  let w : ℝ := max 0 (min 1 (p.underPhi : ℝ))
  let Trob := ((k / (dy p : ℝ)) * T1 + hGap * p.Tair) / ((k / (dy p : ℝ)) + hGap)
  w * Tpipe + (1 - w) * Trob

/-- The pipe boundary temperature looked up for a pipe cell:
`label >= 0 ? TpipeArr[clamped label] : twm`. -/
noncomputable def pipeTempAt (p : Params) (i j : ℕ) : ℝ :=
  if 0 ≤ pipeLabel p i j then arrGetClamped (TpipeArr p) (pipeLabel p i j)
  else twm p

/-- Value written at top-row cell `(i, 0)` during the `j === 0` loop body:
pipe cells get the pipe temperature (mat-blended for a `mat` underlay),
non-pipe cells get the Robin flux-weighted average
`T0 = ((k/dy)*T1 + hEff*Tair) / ((k/dy) + hEff)` with `T1 = T[idx(i,1)]`
and `k = kRow[0]`. -/
noncomputable def topCellVal (p : Params) (T : Field) (i : ℕ) : ℝ :=
  if pipeMask p i 0 = 1 then
    let Tpipe := pipeTempAt p i 0
    if p.underType = UnderType.mat then matBlend p Tpipe (T i 1) (kRow p 0 : ℝ)
    else Tpipe
  else
    ((((kRow p 0 : ℝ)) / (dy p : ℝ)) * T i 1 + hEffVal p * p.Tair) /
      (((kRow p 0 : ℝ)) / (dy p : ℝ) + hEffVal p)

/-- The top-row inner loop over `i`: each cell reads only row `1` (and the
parameters), so the loop's net effect on row `0` is pointwise. -/
noncomputable def topRowPhase1 (p : Params) (T : Field) : Field := fun i j =>
  if j = 0 ∧ i < NX then topCellVal p T i else T i j

/-- The full `j === 0` sweep: the inner loop, then the two corner
assignments `T[idx(0,0)] = T[idx(1,0)]`, `T[idx(NX-1,0)] = T[idx(NX-2,0)]`
executed in order. -/
noncomputable def topRowSweep (p : Params) (T : Field) : Field :=
  let T1 := topRowPhase1 p T
  let T2 := writeT T1 0 0 (T1 1 0)
  writeT T2 (NX - 1) 0 (T2 (NX - 2) 0)

/-- The `j === NY-1` sweep: `twm` for pipe cells, `belowT` otherwise. -/
noncomputable def botRowSweep (p : Params) (T : Field) : Field := fun i j =>
  if j = NYn p - 1 ∧ i < NX then
    (if pipeMask p i j = 1 then twm p else p.belowT)
  else T i j

/-- `omega = 1.85`. -/
def omega : ℝ := 1.85

/-- Value computed for interior cell `(i, j)` from the current state of the
field: mirror edges at `i = 0` and `i = NX-1`, pipe cells as in the top row,
and otherwise the SOR update of the discrete conduction equation with
harmonic-mean vertical conductivities. -/
noncomputable def interiorCellVal (p : Params) (T : Field) (i j : ℕ) : ℝ :=
  if i = 0 then T 1 j
  else if i = NX - 1 then T (NX - 2) j
  else if pipeMask p i j = 1 then
    let Tpipe := pipeTempAt p i j
    if p.underType = UnderType.mat then matBlend p Tpipe (T i (j + 1)) (kRow p j : ℝ)
    else Tpipe
  else
    let k : ℝ := (kRow p j : ℝ); let kU : ℝ := (kRow p (j - 1) : ℝ)
    let kD : ℝ := (kRow p (j + 1) : ℝ)
    let kxL := k; let kxR := k
    let kyU := 2 * k * kU / (k + kU); let kyD := 2 * k * kD / (k + kD)
    let tL := T (i - 1) j; let tR := T (i + 1) j
    let tU := T i (j - 1); let tD := T i (j + 1)
    let dxr : ℝ := (dx p : ℝ); let dyr : ℝ := (dy p : ℝ)
    let Ax := kxL / (dxr * dxr) + kxR / (dxr * dxr)
    let Ay := kyU / (dyr * dyr) + kyD / (dyr * dyr)
    let b := (kxL * tL + kxR * tR) / (dxr * dxr) + (kyU * tU + kyD * tD) / (dyr * dyr)
    let Tnew := b / (Ax + Ay)
    let old := T i j
    old + omega * (Tnew - old)

/-- The interior row sweep over `i = 0 .. NX-1`, sequential (each update
sees the writes of the previous ones, as in the in-place array). -/
noncomputable def interiorRowSweep (p : Params) (j : ℕ) (T : Field) : Field :=
  (List.range NX).foldl (fun Tc i => writeT Tc i j (interiorCellVal p Tc i j)) T

/-- One row of the per-iteration sweep. -/
noncomputable def sweepRow (p : Params) (T : Field) (j : ℕ) : Field :=
  if j = 0 then topRowSweep p T
  else if j = NYn p - 1 then botRowSweep p T
  else interiorRowSweep p j T

/-- One full iteration: rows `j = 0 .. NY-1` in order. -/
noncomputable def iterationSweep (p : Params) (T : Field) : Field :=
  (List.range (NYn p)).foldl (sweepRow p) T

/-- `iters = 1200`. -/
def iters : ℕ := 1200

/-- The solved field: `iters` full sweeps starting from the interpolated
initial field. -/
noncomputable def solveField (p : Params) : Field :=
  (fun T => iterationSweep p T)^[iters] (initField p)

/-! ## Flux metrics -/

/-- `qUpMean`: mean over all columns of `hEff * (surfaceT[i] - Tair)`. -/
noncomputable def qUpMean (p : Params) (T : Field) : ℝ :=
  (∑ i ∈ Finset.range NX, hEffVal p * (T i 0 - p.Tair)) / NX

/-- `qDownMean`: mean over all columns of
`-kB * (T[idx(i,NY-1)] - T[idx(i,NY-2)]) / dy` with `kB = kRow[NY-1]`
(positive = downward). -/
noncomputable def qDownMean (p : Params) (T : Field) : ℝ :=
  (∑ i ∈ Finset.range NX,
    -(kRow p (NYn p - 1) : ℝ) * (T i (NYn p - 1) - T i (NYn p - 2)) / (dy p : ℝ)) / NX

/-- `qDownAbs = Math.max(0, qDownMean)` — the reported downward flux. -/
noncomputable def qDownAbs (p : Params) (T : Field) : ℝ := max 0 (qDownMean p T)

/-- `qTotalPerArea = qUpMean + qDownAbs`. -/
noncomputable def qTotalPerArea (p : Params) (T : Field) : ℝ :=
  qUpMean p T + qDownAbs p T

/-- `upShare = qUpMean / (qTotalPerArea + 1e-9)`. -/
noncomputable def upShare (p : Params) (T : Field) : ℝ :=
  qUpMean p T / (qTotalPerArea p T + 1e-9)

/-- The scalar flux-metric bundle returned to the caller. -/
structure FluxMetrics where
  qUp : ℝ
  qDown : ℝ
  qTotal : ℝ
  share : ℝ

/-- The metrics of the solved field of a parameter set. -/
noncomputable def metricsOf (p : Params) : FluxMetrics :=
  let T := solveField p
  ⟨qUpMean p T, qDownAbs p T, qTotalPerArea p T, upShare p T⟩

/-! ## Concrete parameter sets (the spec's example scenario and variants) -/

/-- The reference configuration: Tair=22, Ts=45, Tr=40, spacing=0.15 m,
pipeOD=0.016 m, screed 0.05 m (semi-dry, k=0.46), tile covering,
EPS 100 mm insulation, no underlay, spiral layout, fixed 9 m² area. -/
noncomputable def pDefault : Params :=
  { Tair := 22, Ts := 45, Tr := 40, spacing := 0.15, pipeOD := 0.016
    screedThk := 0.05, hTop := 10, belowT := 18, airVel := 0
    coverT := 0.014, coverK := 1.10, screedK := 0.46
    insulT := 0.10, insulK := 0.035
    underType := UnderType.none, underT := 0, underPhi := 1
    layoutSpiral := true, loopLength := 80, loopPosFrac := 0.5
    useFixedArea := true, areaM2 := 9 }

/-- The bubble-underlay variant of the reference configuration. -/
noncomputable def pBubble : Params :=
  { pDefault with underType := UnderType.bubble, underT := 0.005 }

/-- The minimal bare configuration: no covering, minimum 0.02 m screed,
0.016 m pipe, no underlay, EPS 100 mm insulation. -/
noncomputable def pBare : Params :=
  { pDefault with coverT := 0, coverK := 99, screedThk := 0.02 }

/-- Laminate covering (k = 0.11) over anhydrite screed (k = 1.60) — both
taken from the preset tables. -/
noncomputable def pLam : Params :=
  { pDefault with coverT := 0.010, coverK := 0.11, screedK := 1.60 }

/-- The reference configuration with the return temperature raised to just
below the supply temperature (meander layout). -/
noncomputable def pC6 : Params :=
  { pDefault with Ts := 45.00001, Tr := 45, layoutSpiral := false }

/-- `T_supply(s) = Tair + (Ts−Tair)·e^(−α·clamp(s,0,L))` as the claim words
it, for a given decay coefficient `α`. -/
noncomputable def claimTsup (Ts Tair α L s : ℝ) : ℝ :=
  Tair + (Ts - Tair) * Real.exp (-α * max 0 (min L s))

/-- `T_return(s) = Tair + (Ts−Tair)·e^(−α·clamp(L−s,0,L))` as the claim
words it. -/
noncomputable def claimTret (Ts Tair α L s : ℝ) : ℝ :=
  Tair + (Ts - Tair) * Real.exp (-α * max 0 (min L (L - s)))

/-- The pipe boundary-temperature profile exactly as claim C1 words it,
with `α = ln(max(Ts−Tair,1e-6)/max(Tr−Tair,1e-6))/L` (no outer floor on
`α`) and the fixed lateral offset `δ` (2.0 m spiral, 3.0 m meander). -/
noncomputable def claimPipeProfile (Ts Tr Tair L x : ℝ) (spiral : Bool) : List ℝ :=
  let α := Real.log (max 1e-6 (Ts - Tair) / max 1e-6 (Tr - Tair)) / L
  let δ : ℝ := if spiral then 2.0 else 3.0
  if spiral then
    [claimTsup Ts Tair α L (x - δ), claimTret Ts Tair α L x, claimTsup Ts Tair α L (x + δ)]
  else
    [claimTsup Ts Tair α L (x - δ), claimTsup Ts Tair α L x, claimTsup Ts Tair α L (x + δ)]

/-- The amended profile: identical to the claim's wording except that the
decay coefficient carries the code's floors,
`α = max(1e-6, ln(max(Ts−Tair,1e-6)/max(Tr−Tair,1e-6))/max(1e-6,L))`. -/
noncomputable def amendedPipeProfile (Ts Tr Tair L x : ℝ) (spiral : Bool) : List ℝ :=
  let α := alphaOf Ts Tr Tair L
  let δ : ℝ := if spiral then 2.0 else 3.0
  if spiral then
    [claimTsup Ts Tair α L (x - δ), claimTret Ts Tair α L x, claimTsup Ts Tair α L (x + δ)]
  else
    [claimTsup Ts Tair α L (x - δ), claimTsup Ts Tair α L x, claimTsup Ts Tair α L (x + δ)]

/-- The candidate vertical cell sizes exactly as the specification words
them: the height-independent baseline resolution (80 nodes, so
`totalH/79`), and per present layer `coveringThickness/6`,
`screedThickness/30`, `underlayThickness/4`, `insulationThickness/10`; a
layer of zero thickness contributes no candidate. -/
def specCandidates (p : Params) : List ℚ :=
  [totalH p / 79]
    ++ (if 0 < tCover p then [tCover p / 6] else [])
    ++ [tScreed p / 30]
    ++ (if 0 < tUnder p then [tUnder p / 4] else [])
    ++ (if 0 < tIns p then [tIns p / 10] else [])

/-! ## Shared helper lemmas -/

/-- `NY ≥ 3` for every parameter set. -/
lemma three_le_NYn (p : Params) : 3 ≤ NYn p := by
  have h : (3 : ℤ) ≤ NYz p := le_max_left _ _
  have := Int.toNat_le_toNat h
  simpa [NYn] using this

/-- The minimum of a list is a lower bound witness: if `c` bounds every
element from below and the list is non-empty, `c` bounds the minimum. -/
lemma le_listMin {c : ℚ} : ∀ {l : List ℚ}, l ≠ [] → (∀ x ∈ l, c ≤ x) →
    c ≤ listMin l
  | [], h, _ => absurd rfl h
  | [a], _, hall => by simpa [listMin] using hall a (by simp)
  | a :: b :: rest, _, hall => by
      have hb : c ≤ listMin (b :: rest) :=
        le_listMin (by simp) fun x hx => hall x (by simp [hx])
      have ha : c ≤ a := hall a (by simp)
      simp [listMin, le_min_iff, ha, hb]

/-- `tUnder ≥ 0` always. -/
lemma tUnder_nonneg (p : Params) : 0 ≤ tUnder p := by
  unfold tUnder; split
  · exact le_of_lt (by tauto)
  · exact le_refl 0

/-- `tScreed ≥ 0.02` always. -/
lemma tScreed_ge (p : Params) : (0.02 : ℚ) ≤ tScreed p := le_max_right _ _

/-- `0.012 ≤ D ≤ 0.02` always. -/
lemma Dval_bounds (p : Params) : (0.012 : ℚ) ≤ Dval p ∧ Dval p ≤ 0.02 := by
  refine ⟨le_max_left _ _, ?_⟩
  unfold Dval
  have h1 : min (0.020 : ℚ) p.pipeOD ≤ 0.02 := (min_le_left _ _).trans (by norm_num)
  exact max_le (by norm_num) h1

/-- `dBotRaw ≥ tUnder` always (for a bubble underlay with positive gap it
equals the gap; otherwise `tUnder = 0`). -/
lemma tUnder_le_dBotRaw (p : Params) : tUnder p ≤ dBotRaw p := by
  have h0 : 0 ≤ dBotRaw p := le_max_left _ _
  unfold tUnder
  split
  · next h =>
      rcases h with ⟨hb, _⟩
      unfold dBotRaw
      rw [hb]
      simp
  · exact h0

/-- `0 ≤ dBot ≤ maxDBot` and `dBot ≤ limitByScreed`. -/
lemma dBot_bounds (p : Params) :
    0 ≤ dBot p ∧ dBot p ≤ maxDBot p ∧ dBot p ≤ max 0 (tScreed p - Dval p) := by
  have h0raw : 0 ≤ dBotRaw p := le_max_left _ _
  have h0max : 0 ≤ maxDBot p := le_max_left _ _
  have hls : (0 : ℚ) ≤ limitByScreed p := le_max_left _ _
  have h1 : maxDBot p ≤ limitByScreed p := max_le hls (min_le_left _ _)
  exact ⟨le_min h0raw h0max, min_le_right _ _, (min_le_right _ _).trans h1⟩

/-- The pipe mask vanishes on the top row. -/
lemma pipeMask_row0 (p : Params) (i : ℕ) : pipeMask p i 0 = 0 := by
  unfold pipeMask
  rw [if_neg]
  rintro ⟨h1, -⟩
  omega

/-- The pipe mask vanishes on the bottom row. -/
lemma pipeMask_rowBot (p : Params) (i : ℕ) : pipeMask p i (NYn p - 1) = 0 := by
  have h3 := three_le_NYn p
  unfold pipeMask
  rw [if_neg]
  rintro ⟨-, h2, -⟩
  omega

/-- The pipe mask vanishes on the left and right edge columns. -/
lemma pipeMask_cols (p : Params) (j : ℕ) :
    pipeMask p 0 j = 0 ∧ pipeMask p (NX - 1) j = 0 := by
  have hNX : NX = 144 := rfl
  constructor <;> (unfold pipeMask; rw [if_neg]; rintro ⟨-, -, h3, h4, -⟩; omega)

/-! ## Claim theorems -/

/-- C10: for a bubble-foil underlay the derived equivalent conductivity is
the same constant for every gap thickness `> 0`: the gap thickness cancels
in `tGap / (0.11·(tGap/0.01)·1.6)`, giving `k_equiv = 0.01/0.176` always,
and the `0.002 W/(m·K)` floor never binds. -/
theorem bubble_kUnder_constant (p : Params)
    (hb : p.underType = UnderType.bubble) (ht : 0 < p.underT) :
    kUnder p = 0.01 / 0.176 ∧ (0.002 : ℚ) < 0.01 / 0.176 := by
  refine ⟨?_, by norm_num⟩
  unfold kUnder
  rw [if_pos ⟨hb, ht⟩]
  have key : p.underT / (0.11 * (p.underT / 0.01) * 1.6) = 0.01 / 0.176 := by
    rw [show (0.11 : ℚ) * (p.underT / 0.01) * 1.6 = 17.6 * p.underT by ring]
    rw [div_eq_div_iff (by positivity) (by norm_num)]
    ring
  rw [key, max_eq_right (by norm_num)]

/-- Witness for C10 at the 5 mm bubble-foil preset. -/
theorem bubble_kUnder_constant_witness :
    pBubble.underType = UnderType.bubble ∧ 0 < pBubble.underT ∧
      (kUnder pBubble = 0.01 / 0.176 ∧ (0.002 : ℚ) < 0.01 / 0.176) :=
  ⟨rfl, by norm_num [pBubble, pDefault],
    bubble_kUnder_constant pBubble rfl (by norm_num [pBubble, pDefault])⟩

/-- C8: the solve is a pure function of the parameter set — identical
parameters give identical temperature fields and identical metrics; no
state persists across invocations in the embedding. -/
theorem solve_deterministic (p q : Params) (h : p = q) :
    solveField p = solveField q ∧ metricsOf p = metricsOf q := by
  subst h; exact ⟨rfl, rfl⟩

/-- Witness for C8 at the reference configuration. -/
theorem solve_deterministic_witness :
    pDefault = pDefault ∧
      (solveField pDefault = solveField pDefault ∧
        metricsOf pDefault = metricsOf pDefault) :=
  ⟨rfl, solve_deterministic pDefault pDefault rfl⟩

/-- C9: every node on the domain boundary has `pipeMask = 0` (the mask is
written only at interior indices), and consequently the pipe branches of
the top-row and bottom-row updates are never taken: the bottom-row sweep
always writes `belowT`, and the top-row cell update always takes the Robin
branch. -/
theorem pipeMask_boundary_zero (p : Params) (i j : ℕ) (T : Field) (i' : ℕ)
    (h : i = 0 ∨ i = NX - 1 ∨ j = 0 ∨ j = NYn p - 1) (h' : i' < NX) :
    pipeMask p i j = 0 ∧
    botRowSweep p T i' (NYn p - 1) = p.belowT ∧
    topCellVal p T i' =
      (((kRow p 0 : ℝ) / (dy p : ℝ)) * T i' 1 + hEffVal p * p.Tair) /
        ((kRow p 0 : ℝ) / (dy p : ℝ) + hEffVal p) := by
  refine ⟨?_, ?_, ?_⟩
  · rcases h with rfl | rfl | rfl | rfl
    · exact (pipeMask_cols p j).1
    · exact (pipeMask_cols p j).2
    · exact pipeMask_row0 p i
    · exact pipeMask_rowBot p i
  · unfold botRowSweep
    rw [if_pos ⟨rfl, h'⟩, if_neg]
    rw [pipeMask_rowBot]
    norm_num
  · unfold topCellVal
    rw [if_neg]
    rw [pipeMask_row0]
    norm_num

/-- Witness for C9 at the reference configuration, boundary node `(0, 5)`,
probe column `i' = 5`. -/
theorem pipeMask_boundary_zero_witness :
    ((0 : ℕ) = 0 ∨ (0 : ℕ) = NX - 1 ∨ (5 : ℕ) = 0 ∨ (5 : ℕ) = NYn pDefault - 1) ∧
    (5 : ℕ) < NX ∧
    (pipeMask pDefault 0 5 = 0 ∧
      botRowSweep pDefault (fun _ _ => 25) 5 (NYn pDefault - 1) = pDefault.belowT ∧
      topCellVal pDefault (fun _ _ => 25) 5 =
        (((kRow pDefault 0 : ℝ) / (dy pDefault : ℝ)) * (fun (_ _ : ℕ) => (25 : ℝ)) 5 1 +
            hEffVal pDefault * pDefault.Tair) /
          ((kRow pDefault 0 : ℝ) / (dy pDefault : ℝ) + hEffVal pDefault)) :=
  ⟨Or.inl rfl, by norm_num [NX],
    pipeMask_boundary_zero pDefault 0 5 (fun _ _ => 25) 5 (Or.inl rfl) (by norm_num [NX])⟩

/-- C7: the reported downward flux is the non-negative part of the
column-mean one-sided finite difference at the bottom boundary using the
bottom-row conductivity; the total flux is the mean upward flux plus
`max(0, mean downward flux)`; the upward share is the mean upward flux over
the total plus `ε = 1e-9`. -/
theorem flux_metrics_spec (p : Params) :
    (metricsOf p).qDown = max 0 ((NX : ℝ)⁻¹ * ∑ i ∈ Finset.range NX,
        (kRow p (NYn p - 1) : ℝ) *
          (solveField p i (NYn p - 2) - solveField p i (NYn p - 1)) / (dy p : ℝ)) ∧
    (metricsOf p).qTotal =
      (NX : ℝ)⁻¹ * (∑ i ∈ Finset.range NX, hEffVal p * (solveField p i 0 - p.Tair)) +
        max 0 ((NX : ℝ)⁻¹ * ∑ i ∈ Finset.range NX,
          (kRow p (NYn p - 1) : ℝ) *
            (solveField p i (NYn p - 2) - solveField p i (NYn p - 1)) / (dy p : ℝ)) ∧
    (metricsOf p).share = (metricsOf p).qUp / ((metricsOf p).qTotal + 1e-9) := by
  have hdown : qDownMean p (solveField p) = (NX : ℝ)⁻¹ * ∑ i ∈ Finset.range NX,
      (kRow p (NYn p - 1) : ℝ) *
        (solveField p i (NYn p - 2) - solveField p i (NYn p - 1)) / (dy p : ℝ) := by
    unfold qDownMean
    rw [div_eq_inv_mul]
    congr 1
    refine Finset.sum_congr rfl fun i _ => by ring
  have hup : qUpMean p (solveField p) = (NX : ℝ)⁻¹ *
      ∑ i ∈ Finset.range NX, hEffVal p * (solveField p i 0 - p.Tair) := by
    unfold qUpMean
    rw [div_eq_inv_mul]
  refine ⟨?_, ?_, ?_⟩
  · show qDownAbs p (solveField p) = _
    rw [qDownAbs, hdown]
  · show qTotalPerArea p (solveField p) = _
    rw [qTotalPerArea, qDownAbs, hdown, hup]
  · show upShare p (solveField p) = _
    rw [upShare]
    rfl

/-- After the full top-row sweep an interior top-row node holds exactly the
value its loop-body update computed (the corner overwrites do not touch it). -/
lemma topRowSweep_interior (p : Params) (T : Field) (i : ℕ)
    (h1 : 0 < i) (h2 : i < NX - 1) : topRowSweep p T i 0 = topCellVal p T i := by
  have hNX : NX = 144 := rfl
  have hiNX : i < NX := by omega
  have hA : ¬(i = NX - 1 ∧ True) := fun hc => absurd hc.1 (by omega)
  have hB : ¬(i = 0 ∧ True) := fun hc => absurd hc.1 (by omega)
  simp only [topRowSweep, writeT]
  rw [if_neg hA, if_neg hB]
  unfold topRowPhase1
  rw [if_pos ⟨rfl, hiNX⟩]

/-- The left top corner ends up equal to its interior neighbor `(1, 0)`. -/
lemma topRowSweep_corner_left (p : Params) (T : Field) :
    topRowSweep p T 0 0 = topRowSweep p T 1 0 := by
  have h1 : topRowSweep p T 1 0 = topCellVal p T 1 :=
    topRowSweep_interior p T 1 (by norm_num) (by norm_num [NX])
  rw [h1]
  simp only [topRowSweep, writeT]
  rw [if_neg (fun hc => absurd hc.1 (by decide : ¬(0 : ℕ) = NX - 1)),
    if_pos ⟨trivial, trivial⟩]
  unfold topRowPhase1
  rw [if_pos ⟨rfl, by norm_num [NX]⟩]

/-- The right top corner ends up equal to its interior neighbor `(NX-2, 0)`. -/
lemma topRowSweep_corner_right (p : Params) (T : Field) :
    topRowSweep p T (NX - 1) 0 = topRowSweep p T (NX - 2) 0 := by
  have h1 : topRowSweep p T (NX - 2) 0 = topCellVal p T (NX - 2) :=
    topRowSweep_interior p T (NX - 2) (by norm_num [NX]) (by norm_num [NX])
  rw [h1]
  simp only [topRowSweep, writeT]
  rw [if_pos ⟨trivial, trivial⟩,
    if_neg (fun hc => absurd hc.1 (by decide : ¬NX - 2 = 0))]
  unfold topRowPhase1
  rw [if_pos ⟨rfl, by norm_num [NX]⟩]

/-- C2: after every top-row sweep, each non-pipe top-row node `(i, 0)` with
`0 < i < NX-1` equals the flux-weighted average
`((k/dy)·T(i,1) + h_eff·Tair) / ((k/dy) + h_eff)` with `k` the top row's
conductivity and `h_eff = h_top + 6·max(0, airVelocity)^0.6`, and the two
top corner nodes are set equal to their nearest interior top-row neighbor. -/
theorem topRow_sweep_spec (p : Params) (T : Field) (i : ℕ)
    (h1 : 0 < i) (h2 : i < NX - 1) (h0 : pipeMask p i 0 = 0) :
    topRowSweep p T i 0 =
      (((kRow p 0 : ℝ) / (dy p : ℝ)) * T i 1 + hEffVal p * p.Tair) /
        ((kRow p 0 : ℝ) / (dy p : ℝ) + hEffVal p) ∧
    topRowSweep p T 0 0 = topRowSweep p T 1 0 ∧
    topRowSweep p T (NX - 1) 0 = topRowSweep p T (NX - 2) 0 := by
  refine ⟨?_, topRowSweep_corner_left p T, topRowSweep_corner_right p T⟩
  rw [topRowSweep_interior p T i h1 h2]
  unfold topCellVal
  rw [if_neg (by rw [h0]; norm_num)]

/-- Witness for C2 at the reference configuration, column `i = 5`, constant
probe field. -/
theorem topRow_sweep_spec_witness :
    (0 : ℕ) < 5 ∧ (5 : ℕ) < NX - 1 ∧ pipeMask pDefault 5 0 = 0 ∧
    (topRowSweep pDefault (fun _ _ => 25) 5 0 =
      (((kRow pDefault 0 : ℝ) / (dy pDefault : ℝ)) * (fun (_ _ : ℕ) => (25 : ℝ)) 5 1 +
          hEffVal pDefault * pDefault.Tair) /
        ((kRow pDefault 0 : ℝ) / (dy pDefault : ℝ) + hEffVal pDefault) ∧
      topRowSweep pDefault (fun _ _ => 25) 0 0 = topRowSweep pDefault (fun _ _ => 25) 1 0 ∧
      topRowSweep pDefault (fun _ _ => 25) (NX - 1) 0 =
        topRowSweep pDefault (fun _ _ => 25) (NX - 2) 0) :=
  ⟨by norm_num, by norm_num [NX], pipeMask_row0 pDefault 5,
    topRow_sweep_spec pDefault (fun _ _ => 25) 5 (by norm_num) (by norm_num [NX])
      (pipeMask_row0 pDefault 5)⟩

/-- C4 counterexample: in the minimal bare configuration the automatically
placed pipe's top sits `0.004 m` below the surface — less than the claimed
minimum covering margin `minCover = 0.02 m`. -/
theorem pipe_geometry_counterexample : pipeTopY pBare < minCover := by
  norm_num [pipeTopY, pipeCenterY, pipeBottomY, yInsulTop, dBot, dBotRaw, maxDBot,
    limitByScreed, limitByCover, tCover, tScreed, tUnder, Dval, minCover, pBare, pDefault]

/-- C4 (amended): the insulation always lies entirely below the pipe, and
the pipe never enters the covering; the pipe top keeps the minimum covering
margin below the surface provided the stack above the insulation is at
least `minCover + D` deep, and the pipe bottom stays out of the underlay
(inside the screed) provided the underlay thickness does not exceed the
allowed embedment `maxDBot`. -/
theorem pipe_geometry_amended (p : Params) :
    pipeBottomY p ≤ yInsulTop p ∧
    tCover p ≤ pipeTopY p ∧
    (minCover + Dval p ≤ yInsulTop p → minCover ≤ pipeTopY p) ∧
    (tUnder p ≤ maxDBot p → pipeBottomY p ≤ yUnderTop p) := by
  obtain ⟨hd0, hdmax, hdls⟩ := dBot_bounds p
  have hDle : Dval p ≤ 0.02 := (Dval_bounds p).2
  have hts : (0.02 : ℚ) ≤ tScreed p := tScreed_ge p
  have htu : 0 ≤ tUnder p := tUnder_nonneg p
  have hDS : Dval p ≤ tScreed p := hDle.trans hts
  have hls : dBot p ≤ tScreed p - Dval p := by
    rwa [max_eq_right (by linarith)] at hdls
  refine ⟨?_, ?_, ?_, ?_⟩
  · unfold pipeBottomY; linarith
  · unfold pipeTopY pipeCenterY pipeBottomY yInsulTop
    linarith
  · intro h
    have hlc : (0 : ℚ) ≤ yInsulTop p - minCover - Dval p := by linarith
    have h2 : maxDBot p ≤ limitByCover p :=
      max_le (le_max_left _ _) (min_le_right _ _)
    have h3 : limitByCover p = yInsulTop p - minCover - Dval p :=
      max_eq_right hlc
    unfold pipeTopY pipeCenterY pipeBottomY
    rw [h3] at h2
    linarith
  · intro h
    have h2 : tUnder p ≤ dBot p := le_min (tUnder_le_dBotRaw p) h
    unfold pipeBottomY yInsulTop yUnderTop
    linarith

/-- Witness for C4 (amended) at the reference configuration, where both
geometric provisos hold. -/
theorem pipe_geometry_amended_witness :
    minCover + Dval pDefault ≤ yInsulTop pDefault ∧
    tUnder pDefault ≤ maxDBot pDefault ∧
    minCover ≤ pipeTopY pDefault ∧ pipeBottomY pDefault ≤ yUnderTop pDefault := by
  have h1 : minCover + Dval pDefault ≤ yInsulTop pDefault := by
    norm_num [minCover, Dval, yInsulTop, tCover, tScreed, tUnder, pDefault]
  have h2 : tUnder pDefault ≤ maxDBot pDefault := by
    norm_num [tUnder, maxDBot, limitByScreed, limitByCover, yInsulTop, tCover,
      tScreed, Dval, minCover, pDefault]
  exact ⟨h1, h2, (pipe_geometry_amended pDefault).2.2.1 h1,
    (pipe_geometry_amended pDefault).2.2.2 h2⟩

/-- Membership in a conditional singleton list forces the value and the
condition. -/
lemma mem_ite_singleton {c : Prop} [Decidable c] {v x : ℚ}
    (h : x ∈ (if c then [v] else ([] : List ℚ))) : x = v ∧ c := by
  split at h
  · exact ⟨List.mem_singleton.mp h, by assumption⟩
  · simp at h

/-- `totalH ≥ 0.02` whenever covering and insulation thicknesses are
non-negative. -/
lemma totalH_ge (p : Params) (h0c : 0 ≤ p.coverT) (h0i : 0 ≤ p.insulT) :
    (0.02 : ℚ) ≤ totalH p := by
  have h1 := tScreed_ge p
  have h2 := tUnder_nonneg p
  unfold totalH tCover tIns
  linarith

/-- C5: the vertical node count `NY` equals
`round(totalH/targetCellSize) + 1` clamped to `[3, 300]`, where
`targetCellSize` is the minimum over the baseline candidate and the
per-layer candidates `coveringThickness/6`, `screedThickness/30`,
`underlayThickness/4`, `insulationThickness/10`, a zero-thickness layer
contributing no candidate; the code's additional `1e-5` floor on the cell
size never binds for thicknesses in the program's range. -/
theorem NY_spec (p : Params)
    (h0c : 0 ≤ p.coverT) (h0i : 0 ≤ p.insulT)
    (hc : p.coverT = 0 ∨ 6 * 1e-5 ≤ p.coverT)
    (hu : tUnder p = 0 ∨ 4 * 1e-5 ≤ tUnder p)
    (hi : p.insulT = 0 ∨ 10 * 1e-5 ≤ p.insulT) :
    NYz p = max 3 (min 300 (jsRound (totalH p / listMin (specCandidates p)) + 1)) := by
  have h002 : (0.02 : ℚ) ≤ totalH p := totalH_ge p h0c h0i
  have hd : dyBase p = totalH p / 79 := by norm_num [dyBase, baseNY]
  have key : ∀ x ∈ dyLimits p, (1e-5 : ℚ) ≤ x := by
    intro x hx
    unfold dyLimits at hx
    simp only [List.mem_append, List.mem_singleton] at hx
    rcases hx with (((rfl | h2) | rfl) | h4) | h5
    · rw [hd, le_div_iff₀ (by norm_num : (0 : ℚ) < 79)]
      linarith
    · obtain ⟨rfl, hcond⟩ := mem_ite_singleton h2
      rcases hc with h | h
      · exact absurd h (by unfold tCover at hcond; exact ne_of_gt hcond)
      · rw [le_div_iff₀ (by norm_num : (0 : ℚ) < 6)]
        unfold tCover
        linarith
    · rw [le_div_iff₀ (by norm_num : (0 : ℚ) < 30)]
      have := tScreed_ge p
      linarith
    · obtain ⟨rfl, hcond⟩ := mem_ite_singleton h4
      rcases hu with h | h
      · exact absurd h (ne_of_gt hcond)
      · rw [le_div_iff₀ (by norm_num : (0 : ℚ) < 4)]
        linarith
    · obtain ⟨rfl, hcond⟩ := mem_ite_singleton h5
      rcases hi with h | h
      · exact absurd h (by unfold tIns at hcond; exact ne_of_gt hcond)
      · rw [le_div_iff₀ (by norm_num : (0 : ℚ) < 10)]
        unfold tIns
        linarith
  have hne : dyLimits p ≠ [] := by unfold dyLimits; simp
  have h1 : (1e-5 : ℚ) ≤ listMin (dyLimits p) := le_listMin hne key
  have h2 : dyTarget p = listMin (dyLimits p) := max_eq_right h1
  have h3 : specCandidates p = dyLimits p := by
    unfold specCandidates dyLimits
    rw [hd]
  rw [h3, ← h2]
  rfl

/-- Witness for C5 at the reference configuration. -/
theorem NY_spec_witness :
    (0 : ℚ) ≤ pDefault.coverT ∧ (0 : ℚ) ≤ pDefault.insulT ∧
    (pDefault.coverT = 0 ∨ 6 * 1e-5 ≤ pDefault.coverT) ∧
    (tUnder pDefault = 0 ∨ 4 * 1e-5 ≤ tUnder pDefault) ∧
    (pDefault.insulT = 0 ∨ 10 * 1e-5 ≤ pDefault.insulT) ∧
    NYz pDefault =
      max 3 (min 300 (jsRound (totalH pDefault / listMin (specCandidates pDefault)) + 1)) := by
  have h0c : (0 : ℚ) ≤ pDefault.coverT := by norm_num [pDefault]
  have h0i : (0 : ℚ) ≤ pDefault.insulT := by norm_num [pDefault]
  have hc : pDefault.coverT = 0 ∨ 6 * 1e-5 ≤ pDefault.coverT := by
    right; norm_num [pDefault]
  have hu : tUnder pDefault = 0 ∨ 4 * 1e-5 ≤ tUnder pDefault := by
    left; norm_num [tUnder, pDefault]
  have hi : pDefault.insulT = 0 ∨ 10 * 1e-5 ≤ pDefault.insulT := by
    right; norm_num [pDefault]
  exact ⟨h0c, h0i, hc, hu, hi, NY_spec pDefault h0c h0i hc hu hi⟩

/-- C3 counterexample: with the laminate covering preset (k = 0.11) over
the anhydrite screed preset (k = 1.60) the conductivity profile strictly
increases with depth across the covering/screed boundary, so `k(y)` is not
a non-increasing-then-constant step function for every configuration. -/
theorem kAt_monotone_counterexample :
    (0.005 : ℚ) ≤ 0.02 ∧ kAt pLam 0.005 < kAt pLam 0.02 := by
  constructor
  · norm_num
  · norm_num [kAt, kCoverEff, tCover, tScreed, tUnder, pLam, pDefault]

/-- C3 (amended): `k(y)` is a step function matching the declared layer
order — every `y` strictly inside a layer is assigned that layer's
conductivity, independent of the neighboring layers' thicknesses — and it
is non-increasing-then-constant whenever the declared effective layer
conductivities themselves are non-increasing (with the underlay link waived
when no underlay layer is present). -/
theorem kAt_layer_spec (p : Params) (y₁ y₂ : ℚ) (hle : y₁ ≤ y₂) :
    ((p.screedK ≤ kCoverEff p ∧ kInsEff p ≤ p.screedK ∧
        (tUnder p = 0 ∨ (kUnder p ≤ p.screedK ∧ kInsEff p ≤ kUnder p))) →
      kAt p y₂ ≤ kAt p y₁) ∧
    (∀ y, 0 < y → y < tCover p → kAt p y = p.coverK) ∧
    (∀ y, tCover p < y → y < tCover p + tScreed p → kAt p y = p.screedK) ∧
    (∀ y, tCover p + tScreed p < y → y < tCover p + tScreed p + tUnder p →
      kAt p y = kUnder p) ∧
    (∀ y, tCover p + tScreed p + tUnder p < y → y < totalH p → kAt p y = p.insulK) := by
  have hts : (0.02 : ℚ) ≤ tScreed p := tScreed_ge p
  have htu : 0 ≤ tUnder p := tUnder_nonneg p
  refine ⟨?_, ?_, ?_, ?_, ?_⟩
  · rintro ⟨hA, hB, hC⟩
    have hBA : kInsEff p ≤ kCoverEff p := hB.trans hA
    rcases hC with h0 | ⟨hC1, hC2⟩
    · unfold kAt
      split_ifs <;> linarith
    · have hCA : kUnder p ≤ kCoverEff p := hC1.trans hA
      have hCB : kInsEff p ≤ kCoverEff p := hC2.trans hCA
      unfold kAt
      split_ifs <;> linarith
  · intro y hy1 hy2
    have hne : p.coverT ≠ 0 := by
      unfold tCover at hy2
      exact ne_of_gt (hy1.trans hy2)
    unfold kAt
    rw [if_pos (le_of_lt hy2)]
    unfold kCoverEff
    rw [if_neg hne]
  · intro y hy1 hy2
    unfold kAt
    rw [if_neg (not_le.mpr hy1), if_pos hy2.le]
  · intro y hy1 hy2
    unfold kAt
    rw [if_neg (not_le.mpr (by linarith)), if_neg (not_le.mpr hy1), if_pos hy2.le]
  · intro y hy1 hy2
    have hins : 0 < p.insulT := by
      unfold totalH tIns at hy2
      linarith
    unfold kAt
    rw [if_neg (not_le.mpr (by linarith)), if_neg (not_le.mpr (by linarith)),
      if_neg (not_le.mpr hy1)]
    unfold kInsEff
    rw [if_pos hins]

/-- Witness for C3 (amended) at the reference configuration, probing the
covering interior (`y = 0.005`) against the screed interior (`y = 0.03`). -/
theorem kAt_layer_spec_witness :
    (0.005 : ℚ) ≤ 0.03 ∧
    (pDefault.screedK ≤ kCoverEff pDefault ∧ kInsEff pDefault ≤ pDefault.screedK ∧
      (tUnder pDefault = 0 ∨
        (kUnder pDefault ≤ pDefault.screedK ∧ kInsEff pDefault ≤ kUnder pDefault))) ∧
    kAt pDefault 0.03 ≤ kAt pDefault 0.005 ∧
    kAt pDefault 0.005 = pDefault.coverK ∧ kAt pDefault 0.03 = pDefault.screedK := by
  have hle : (0.005 : ℚ) ≤ 0.03 := by norm_num
  have hA : pDefault.screedK ≤ kCoverEff pDefault := by
    norm_num [kCoverEff, pDefault]
  have hB : kInsEff pDefault ≤ pDefault.screedK := by
    norm_num [kInsEff, pDefault]
  have hC : tUnder pDefault = 0 ∨
      (kUnder pDefault ≤ pDefault.screedK ∧ kInsEff pDefault ≤ kUnder pDefault) := by
    left; norm_num [tUnder, pDefault]
  obtain ⟨hmono, hcov, hscr, -, -⟩ := kAt_layer_spec pDefault 0.005 0.03 hle
  refine ⟨hle, ⟨hA, hB, hC⟩, hmono ⟨hA, hB, hC⟩, ?_, ?_⟩
  · exact hcov 0.005 (by norm_num) (by norm_num [tCover, pDefault])
  · exact hscr 0.03 (by norm_num [tCover, pDefault])
      (by norm_num [tCover, tScreed, pDefault])

/-- The pipeline's pipe-temperature list written as the three-entry
supply/return profile with the code's floored decay coefficient. -/
lemma TpipeArr_eq_amended (p : Params) :
    TpipeArr p =
      amendedPipeProfile p.Ts p.Tr p.Tair (L_eff p : ℝ) (xPos p : ℝ) p.layoutSpiral := by
  unfold TpipeArr computePipeTemperatures amendedPipeProfile alphaOf claimTsup claimTret
  cases hsp : p.layoutSpiral <;> simp [hsp] <;>
    rw [if_neg (by norm_num [nPipes] : ¬nPipes ≤ 1)] <;>
    rw [show (1 ⊔ nPipes) = 3 from rfl] <;> rfl

/-- For `1e-6 ≤ Tr − Tair < Ts − Tair`, `0 < L` and
`α = ln((Ts−Tair)/(Tr−Tair))/L`, every decayed temperature
`Tair + (Ts−Tair)·e^(−α·clamp(v,0,L))` lies in `[Tr, Ts]`. -/
lemma clamp_decay_bounds (Tair Ts Tr L α v : ℝ)
    (hden : 1e-6 ≤ Tr - Tair) (hlt : Tr < Ts) (hLpos : 0 < L)
    (hα : α = Real.log ((Ts - Tair) / (Tr - Tair)) / L) (hαpos : 0 < α) :
    Tr ≤ Tair + (Ts - Tair) * Real.exp (-α * max 0 (min L v)) ∧
    Tair + (Ts - Tair) * Real.exp (-α * max 0 (min L v)) ≤ Ts := by
  set c := max 0 (min L v) with hc
  have hc0 : 0 ≤ c := le_max_left _ _
  have hcL : c ≤ L := max_le hLpos.le (min_le_left _ _)
  have hdpos : 0 < Tr - Tair := lt_of_lt_of_le (by norm_num) hden
  have hnpos : 0 < Ts - Tair := by linarith
  have hrpos : 0 < (Ts - Tair) / (Tr - Tair) := by positivity
  have hαL : α * L = Real.log ((Ts - Tair) / (Tr - Tair)) := by
    rw [hα]; field_simp
  have hαc_le : α * c ≤ Real.log ((Ts - Tair) / (Tr - Tair)) := by
    calc α * c ≤ α * L := mul_le_mul_of_nonneg_left hcL hαpos.le
    _ = _ := hαL
  have hαc0 : 0 ≤ α * c := mul_nonneg hαpos.le hc0
  have hexp_le : Real.exp (-α * c) ≤ 1 := by
    rw [Real.exp_le_one_iff]; nlinarith
  have hexp_ge : Real.exp (-Real.log ((Ts - Tair) / (Tr - Tair))) ≤ Real.exp (-α * c) := by
    apply Real.exp_le_exp.mpr; nlinarith
  have hinv : Real.exp (-Real.log ((Ts - Tair) / (Tr - Tair))) =
      (Tr - Tair) / (Ts - Tair) := by
    rw [Real.exp_neg, Real.exp_log hrpos, inv_div]
  constructor
  · have hge : (Tr - Tair) / (Ts - Tair) ≤ Real.exp (-α * c) := by
      rw [← hinv]; exact hexp_ge
    have h2 : (Ts - Tair) * ((Tr - Tair) / (Ts - Tair)) = Tr - Tair := by field_simp
    have h3 := mul_le_mul_of_nonneg_left hge hnpos.le
    rw [h2] at h3
    linarith
  · have h3 := mul_le_mul_of_nonneg_left hexp_le hnpos.le
    linarith

/-- C1 counterexample: with `Ts = Tr = 45`, `Tair = 22`, `L = 60`, `x = 30`
(meander), the code floors `α` at `1e-6` while the claim's formula gives
`α = 0`, so the computed profile differs from the claimed one (the middle
temperature is `22 + 23·e^(−3·10⁻⁵)`, strictly below the claimed `45`). -/
theorem pipe_profile_counterexample :
    computePipeTemperatures 3 45 45 false 22 60 30 0.15 ≠
      claimPipeProfile 45 45 22 60 30 false := by
  intro h
  have hmax : max (1e-6 : ℝ) ((45 : ℝ) - 22) = 23 := by
    rw [max_eq_right (by norm_num)]; norm_num
  have hone : max (1e-6 : ℝ) ((45 : ℝ) - 22) / max (1e-6 : ℝ) ((45 : ℝ) - 22) = 1 :=
    div_self (by rw [hmax]; norm_num)
  have hmid := congrArg (fun l => l.getD 1 0) h
  unfold computePipeTemperatures claimPipeProfile claimTsup at hmid
  rw [if_neg (by norm_num : ¬(3 : ℕ) ≤ 1)] at hmid
  simp only [Bool.false_eq_true, if_false, List.take, List.getD, List.get?] at hmid
  rw [hone, Real.log_one] at hmid
  norm_num at hmid
  have hlt : Real.exp (-(3 / 100000 : ℝ)) < 1 := Real.exp_lt_one_iff.mpr (by norm_num)
  linarith [hlt]

/-- C1 (amended): for every parameter set the pipe boundary-temperature
profile is `[T_supply(x−δ), T_supply(x), T_supply(x+δ)]` for meander layout
and `[T_supply(x−δ), T_return(x), T_supply(x+δ)]` for spiral layout, with
`δ = 2 m` (spiral) / `3 m` (meander), where the decay coefficient carries
the code's outer floor `α = max(1e-6, ln(num/den)/max(1e-6,L))`. -/
theorem pipe_profile_amended (p : Params) :
    TpipeArr p =
      amendedPipeProfile p.Ts p.Tr p.Tair (L_eff p : ℝ) (xPos p : ℝ) p.layoutSpiral :=
  TpipeArr_eq_amended p

/-- C6 (amended): with `Ts > Tr > Tair`, the fitted decay coefficient is
strictly positive, and — provided the floors do not bind
(`Tr − Tair ≥ 1e-6` and `ln((Ts−Tair)/(Tr−Tair)) ≥ 1e-6·L`, which holds
whenever `Ts` is far above `Tr`, including at the `L = 5 m` floor) — every
temperature in the pipe profile lies between `Tr` and `Ts`. -/
theorem alpha_profile_bounds (p : Params)
    (h1 : 1e-6 ≤ p.Tr - p.Tair) (h2 : p.Tr < p.Ts)
    (h3 : 1e-6 * (L_eff p : ℝ) ≤ Real.log ((p.Ts - p.Tair) / (p.Tr - p.Tair))) :
    0 < alphaOf p.Ts p.Tr p.Tair (L_eff p : ℝ) ∧
    ∀ t ∈ TpipeArr p, p.Tr ≤ t ∧ t ≤ p.Ts := by
  have hL5 : (5 : ℝ) ≤ (L_eff p : ℝ) := by
    have h : (5 : ℚ) ≤ L_eff p := le_max_left _ _
    exact_mod_cast h
  have hLpos : (0 : ℝ) < (L_eff p : ℝ) := by linarith
  have hnum : max (1e-6 : ℝ) (p.Ts - p.Tair) = p.Ts - p.Tair :=
    max_eq_right (by linarith)
  have hden : max (1e-6 : ℝ) (p.Tr - p.Tair) = p.Tr - p.Tair := max_eq_right h1
  have hmaxL : max (1e-6 : ℝ) ((L_eff p : ℝ)) = (L_eff p : ℝ) :=
    max_eq_right (by linarith)
  have hαraw : (1e-6 : ℝ) ≤
      Real.log ((p.Ts - p.Tair) / (p.Tr - p.Tair)) / (L_eff p : ℝ) :=
    (le_div_iff₀ hLpos).mpr (by linarith)
  have hα : alphaOf p.Ts p.Tr p.Tair (L_eff p : ℝ) =
      Real.log ((p.Ts - p.Tair) / (p.Tr - p.Tair)) / (L_eff p : ℝ) := by
    unfold alphaOf
    rw [hnum, hden, hmaxL]
    exact max_eq_right hαraw
  have hαpos : 0 < alphaOf p.Ts p.Tr p.Tair (L_eff p : ℝ) := by
    unfold alphaOf
    exact lt_of_lt_of_le (by norm_num) (le_max_left _ _)
  refine ⟨hαpos, ?_⟩
  intro t ht
  rw [TpipeArr_eq_amended p] at ht
  unfold amendedPipeProfile claimTsup claimTret at ht
  rcases Bool.eq_false_or_eq_true p.layoutSpiral with hsp | hsp <;> rw [hsp] at ht <;>
    simp only [Bool.false_eq_true, if_false, if_true, List.mem_cons,
      List.not_mem_nil, or_false] at ht <;>
    rcases ht with rfl | rfl | rfl <;>
    exact clamp_decay_bounds p.Tair p.Ts p.Tr (L_eff p : ℝ) _ _ h1 h2 hLpos hα hαpos

/-- Witness for C6 (amended) at the reference configuration
(`Ts = 45`, `Tr = 40`, `Tair = 22`, `L_eff = 60`). -/
theorem alpha_profile_bounds_witness :
    (1e-6 ≤ pDefault.Tr - pDefault.Tair ∧ pDefault.Tr < pDefault.Ts ∧
      1e-6 * (L_eff pDefault : ℝ) ≤
        Real.log ((pDefault.Ts - pDefault.Tair) / (pDefault.Tr - pDefault.Tair))) ∧
    (0 < alphaOf pDefault.Ts pDefault.Tr pDefault.Tair (L_eff pDefault : ℝ) ∧
      ∀ t ∈ TpipeArr pDefault, pDefault.Tr ≤ t ∧ t ≤ pDefault.Ts) := by
  have h1 : (1e-6 : ℝ) ≤ pDefault.Tr - pDefault.Tair := by norm_num [pDefault]
  have h2 : pDefault.Tr < pDefault.Ts := by norm_num [pDefault]
  have hLq : L_eff pDefault = 60 := by
    norm_num [L_eff, Sval, pDefault, min_def, max_def]
  have ha := Real.add_one_le_exp (-(6 / 100000) : ℝ)
  have hb : (0 : ℝ) < 1 - 6 / 100000 := by norm_num
  have hc : Real.exp ((6 / 100000 : ℝ)) ≤ (1 - 6 / 100000)⁻¹ := by
    have he : Real.exp (-(6 / 100000 : ℝ)) = (Real.exp (6 / 100000 : ℝ))⁻¹ :=
      Real.exp_neg _
    have h1' : 1 - 6 / 100000 ≤ (Real.exp (6 / 100000 : ℝ))⁻¹ := by
      rw [← he]; linarith
    have h2' := inv_anti₀ hb h1'
    rwa [inv_inv] at h2'
  have hd : Real.exp ((6 / 100000 : ℝ)) ≤ 23 / 18 := hc.trans (by norm_num)
  have h3 : 1e-6 * (L_eff pDefault : ℝ) ≤
      Real.log ((pDefault.Ts - pDefault.Tair) / (pDefault.Tr - pDefault.Tair)) := by
    rw [hLq]
    have hcast : ((60 : ℚ) : ℝ) = 60 := by norm_num
    rw [hcast]
    have hval : (pDefault.Ts - pDefault.Tair) / (pDefault.Tr - pDefault.Tair) =
        (23 / 18 : ℝ) := by norm_num [pDefault]
    rw [hval, show (1e-6 : ℝ) * 60 = 6 / 100000 by norm_num]
    exact (Real.le_log_iff_exp_le (by norm_num : (0 : ℝ) < 23 / 18)).mpr hd
  exact ⟨⟨h1, h2, h3⟩, alpha_profile_bounds pDefault h1 h2 h3⟩

/-- C6 counterexample: with `Ts = 45.00001` barely above `Tr = 45`
(`Tair = 22`, meander, `L_eff = 60`), the `1e-6` floor on `α` binds and the
middle profile temperature `22 + 23.00001·e^(−3·10⁻⁵)` drops strictly below
`Tr`, so "no pipe temperature falls below Tr" fails for general
`Ts > Tr > Tair`. -/
theorem alpha_profile_counterexample :
    pC6.Tair < pC6.Tr ∧ pC6.Tr < pC6.Ts ∧ (TpipeArr pC6).getD 1 0 < pC6.Tr := by
  refine ⟨by norm_num [pC6, pDefault], by norm_num [pC6, pDefault], ?_⟩
  have hLq : L_eff pC6 = 60 := by
    norm_num [L_eff, Sval, pC6, pDefault, min_def, max_def]
  have hxq : xPos pC6 = 30 := by
    unfold xPos
    rw [hLq]
    norm_num [pC6, pDefault, min_def, max_def]
  have hαval : alphaOf (45.00001 : ℝ) 45 22 60 = 1e-6 := by
    unfold alphaOf
    rw [max_eq_right (by norm_num : (1e-6 : ℝ) ≤ 45.00001 - 22),
      max_eq_right (by norm_num : (1e-6 : ℝ) ≤ (45 : ℝ) - 22),
      max_eq_right (by norm_num : (1e-6 : ℝ) ≤ (60 : ℝ))]
    apply max_eq_left
    have hr : ((45.00001 : ℝ) - 22) / ((45 : ℝ) - 22) = 23.00001 / 23 := by norm_num
    rw [hr]
    have hlog : Real.log ((23.00001 : ℝ) / 23) ≤ 23.00001 / 23 - 1 :=
      Real.log_le_sub_one_of_pos (by norm_num)
    rw [div_le_iff₀ (by norm_num : (0 : ℝ) < 60)]
    calc Real.log ((23.00001 : ℝ) / 23) ≤ 23.00001 / 23 - 1 := hlog
    _ ≤ 1e-6 * 60 := by norm_num
  rw [TpipeArr_eq_amended pC6]
  unfold amendedPipeProfile claimTsup claimTret
  rw [show pC6.layoutSpiral = false from rfl]
  simp only [Bool.false_eq_true, if_false, List.getD, List.get?, Option.getD_some]
  rw [hLq, hxq]
  push_cast
  simp only [pC6, pDefault]
  rw [hαval]
  rw [min_eq_right (by norm_num : (30 : ℝ) ≤ 60),
    max_eq_right (by norm_num : (0 : ℝ) ≤ 30)]
  rw [show (45.00001 : ℝ) - 22 = 23.00001 by norm_num]
  have ha := Real.add_one_le_exp (3 / 100000 : ℝ)
  have hpos : (0 : ℝ) < 1 + 3 / 100000 := by norm_num
  have h1' : 1 + 3 / 100000 ≤ Real.exp (3 / 100000 : ℝ) := by linarith
  have h2' := inv_anti₀ hpos h1'
  rw [← Real.exp_neg] at h2'
  have hexp : Real.exp (-(1e-6 : ℝ) * 30) ≤ (1 + 3 / 100000)⁻¹ := by
    rw [show (-(1e-6 : ℝ) * 30) = -(3 / 100000 : ℝ) by norm_num]
    exact h2'
  have hmul : (23.00001 : ℝ) * Real.exp (-(1e-6 : ℝ) * 30) ≤
      (23.00001 : ℝ) * (1 + 3 / 100000)⁻¹ :=
    mul_le_mul_of_nonneg_left hexp (by norm_num)
  have hfin : (23.00001 : ℝ) * (1 + 3 / 100000)⁻¹ < 23 := by norm_num
  linarith

end Simpol
